import Mathlib

/-!
Verification of the mcp-bsl-lsp-bridge core against its specification.

The Go source is shallowly embedded: pure fragments become Lean functions,
stateful fragments become explicit state-passing functions, and the
concurrency around the pending-request maps is modelled by exposing the
map before the wait, during the wait, and after completion.  Go byte
strings used by the path/URI layer are modelled as `List Char` (the
inputs of interest are ASCII, where Go's byte-wise operations coincide
with character-wise ones); elsewhere Lean `String` is used directly.
-/

set_option autoImplicit false

namespace Bridge

/-! ### Substring search (Go `strings.Contains`) -/

/-- Does `pat` occur at the head of `s`?  (Go `strings.HasPrefix`, byte-wise.) -/
def startsWithL (pat s : List Char) : Bool :=
  match pat, s with
  | [], _ => true
  | _ :: _, [] => false
  | a :: ps, b :: ss => a == b && startsWithL ps ss

/-- Does `pat` occur anywhere inside `s`?  (Go `strings.Contains`.) -/
def hasSub (pat : List Char) : List Char → Bool
  | [] => startsWithL pat []
  | c :: t => startsWithL pat (c :: t) || hasSub pat t

/-- Go `strings.Contains(s, sub)` on Lean strings. -/
def strContains (s sub : String) : Bool :=
  hasSub sub.toList s.toList

/-! ### `BuildLSPStatus` (mcpserver/tools, lsp_status)

One entry of `ListConnectedClients` after sorting, as observed by
`BuildLSPStatus`: the metrics snapshot plus the progress snapshot and the
optional `SessionAdapter` indexing state. -/

structure ClientInfo where
  connected : Bool
  status : String
  lastError : String
  activeProgress : Nat
  /-- `some st` when the client is a `SessionAdapter` whose
  `GetIndexingStatus` returns a non-nil status with `State = st`. -/
  indexingState : Option String
  deriving Repr, DecidableEq

/-- The connection-level error test of `BuildLSPStatus`:
`statusStr == "disconnected" || !connected || strings.Contains(lastError, ...)`. -/
def isConnError (c : ClientInfo) : Bool :=
  c.status == "disconnected" || !c.connected ||
    strContains c.lastError "connection is closed" ||
    strContains c.lastError "already disconnected" ||
    strContains c.lastError "EOF"

/-- The `anyStarting` test: status is connecting, uninitialized or restarting. -/
def isStartingStatus (c : ClientInfo) : Bool :=
  c.status == "connecting" || c.status == "uninitialized" || c.status == "restarting"

/-- Indexing state reported by the first client that exposes one
(`status.Indexing == nil` guard in the loop). -/
def firstIndexingState : List ClientInfo → Option String
  | [] => none
  | c :: t =>
    match c.indexingState with
    | some st => some st
    | none => firstIndexingState t

/-- The accumulated status fields of `BuildLSPStatus` (activity list elided). -/
structure LSPStatus where
  ready : Bool
  state : String
  deriving Repr, DecidableEq

/-- `connectedCount` accumulated by the loop of `BuildLSPStatus`. -/
def connectedCount (clients : List ClientInfo) : Nat :=
  clients.countP (fun c => c.connected)

/-- `anyError` accumulated by the loop of `BuildLSPStatus`. -/
def anyConnError (clients : List ClientInfo) : Bool :=
  clients.any isConnError

/-- `anyStarting` accumulated by the loop of `BuildLSPStatus`. -/
def anyStarting (clients : List ClientInfo) : Bool :=
  clients.any isStartingStatus

/-- `anyBusy` accumulated by the loop of `BuildLSPStatus`: active progress
events, or the first reported indexing status being `"indexing"`. -/
def anyBusy (clients : List ClientInfo) : Bool :=
  clients.any (fun c => decide (0 < c.activeProgress)) ||
    (match firstIndexingState clients with
     | some st => st == "indexing"
     | none => false)

/-- The `switch` at the end of `BuildLSPStatus` choosing `status.State`. -/
def statusState (clients : List ClientInfo) : String :=
  if anyConnError clients then "error"
  else if anyBusy clients then "busy"
  else if anyStarting clients || decide (connectedCount clients = 0) then "starting"
  else "ready"

/-- `BuildLSPStatus` over the sorted client list: the empty-clients early
return, then the state switch and `Ready = connectedCount > 0 && !anyError`. -/
def buildLSPStatus (clients : List ClientInfo) : LSPStatus :=
  if clients = [] then { ready := false, state := "starting" }
  else
    { ready := decide (0 < connectedCount clients) && !anyConnError clients
      state := statusState clients }

/-! ### Session daemon: `handleDidOpen` (lsp-session-manager)

The daemon's document set `openDocs : map[string]bool` is modelled as the
list of URIs mapped to `true`; `openDocs[uri] = true` is an
insert-if-absent. -/

/-- A notification written to the LSP child process: method plus the URI of
the document parameter (the only part the claims inspect). -/
structure ChildNotif where
  method : String
  uri : String
  deriving Repr, DecidableEq

/-- Daemon state relevant to document tracking. -/
structure DocState where
  openDocs : List String
  deriving Repr, DecidableEq

/-- `openDocs[uri] = true` on the map model. -/
def docInsert (s : DocState) (uri : String) : DocState :=
  if uri ∈ s.openDocs then s else { openDocs := uri :: s.openDocs }

/-- Result of `handleDidOpen`: the API result value (`some "already_open"`
or `nil`), the notifications sent to the LSP child, and the new state. -/
def handleDidOpen (s : DocState) (uri : String) :
    Option String × List ChildNotif × DocState :=
  let alreadyOpen := uri ∈ s.openDocs
  let s' := docInsert s uri
  if alreadyOpen then (some "already_open", [], s')
  else (none, [{ method := "textDocument/didOpen", uri := uri }], s')

/-- `handleDidClose`: delete from the set and notify the child. -/
def handleDidClose (s : DocState) (uri : String) :
    Option String × List ChildNotif × DocState :=
  ({ openDocs := s.openDocs.erase uri } : DocState) |>
    fun s' => (none, [{ method := "textDocument/didClose", uri := uri }], s')

/-! ### `SessionClient.Call` pending-map discipline (lsp/session_client.go)

`Call` allocates an id, registers a reply channel in `pending`, sends the
request, and waits on either the channel or `ctx.Done()`; a deferred
`delete(sc.pending, id)` runs on every return path.  The model exposes the
pending map at the three relevant instants. -/

/-- The channel value delivered by `readResponses`, or the deadline firing. -/
inductive CallOutcome where
  | reply (value : String)
  | deadline
  deriving Repr, DecidableEq

/-- Errors `Call` can return in the modelled paths. -/
inductive CallError where
  | deadlineExceeded
  deriving Repr, DecidableEq

/-- The pending map (ids only), before the call, while waiting, and after
the deferred delete, together with the returned value. -/
structure CallTrace where
  pendingDuring : List Int
  pendingAfter : List Int
  result : Except CallError String
  deriving Repr

/-- `SessionClient.Call`: register `id`, wait for `outcome`, deferred
delete on return. -/
def sessionCall (pendingBefore : List Int) (id : Int) (outcome : CallOutcome) :
    CallTrace :=
  let during := id :: pendingBefore
  let result : Except CallError String :=
    match outcome with
    | .reply v => .ok v
    | .deadline => .error .deadlineExceeded
  { pendingDuring := during
    pendingAfter := during.erase id
    result := result }

/-! ### Session daemon: `handleAPIRequest` dispatch and `sendAPIError`

`HandleClient` parses each newline-delimited request, calls
`handleAPIRequest`, and on a handler error replies with
`sendAPIError(conn, req.ID, -32603, err.Error())`; on success it writes a
`{"jsonrpc","id","result"}` object. -/

/-- The methods of the `switch` in `handleAPIRequest`: handled locally or
forwarded to the LSP child. -/
def handledAPIMethods : List String :=
  ["session/status", "session/capabilities",
   "textDocument/didOpen", "textDocument/didClose",
   "textDocument/hover", "textDocument/definition", "textDocument/references",
   "textDocument/documentSymbol", "textDocument/diagnostic",
   "textDocument/implementation", "textDocument/codeAction",
   "textDocument/formatting", "textDocument/rename",
   "textDocument/prepareRename", "textDocument/prepareCallHierarchy",
   "callHierarchy/incomingCalls", "callHierarchy/outgoingCalls",
   "workspace/symbol"]

/-- `handleAPIRequest` outcome as far as error propagation is concerned:
the `default` branch returns `fmt.Errorf("unknown method: %s", method)`. -/
def handleAPIRequestOutcome (method : String) : Except String Unit :=
  if method ∈ handledAPIMethods then .ok ()
  else .error ("unknown method: " ++ method)

/-- A daemon API reply as written back by `HandleClient`. -/
inductive APIReply where
  | success (id : Int)
  | rpcError (id : Int) (code : Int) (message : String)
  deriving Repr, DecidableEq

/-- `HandleClient`'s handling of one parsed request with the given method:
handler error goes through `sendAPIError(conn, req.ID, -32603, ...)`. -/
def handleClientReply (id : Int) (method : String) : APIReply :=
  match handleAPIRequestOutcome method with
  | .error e => .rpcError id (-32603) e
  | .ok _ => .success id

/-! ### `ClientHandler.Handle` (lsp/handler.go) and the unhandled-notification
rate limiter (lsp/methods.go) -/

/-- `jsonrpc2.CodeMethodNotFound` from the sourcegraph/jsonrpc2 dependency
(the standard JSON-RPC 2.0 method-not-found code). -/
def codeMethodNotFound : Int := -32601

/-- A visible action of `ClientHandler.Handle` on one server message. -/
inductive HandlerAction where
  /-- `conn.Reply` with a success result. -/
  | reply
  /-- `conn.ReplyWithError` with the given code. -/
  | replyError (code : Int)
  /-- a `logger.*` line outside the rate-limited path -/
  | logMessage
  /-- an update of the progress tracker -/
  | progressUpdate
  /-- `logUnhandledNotification` (the rate-limited path) -/
  | logUnhandled
  deriving Repr, DecidableEq

/-- The `switch req.Method` of `ClientHandler.Handle`; `isNotif` is
`req.Notif`.  Unknown requests get a method-not-found error reply; unknown
notifications are only handed to `logUnhandledNotification`. -/
def clientHandle (method : String) (isNotif : Bool) : List HandlerAction :=
  if method = "$/progress" ∨ method = "#/progress" then [.progressUpdate]
  else if method = "window/workDoneProgress/create" then [.progressUpdate, .reply]
  else if method = "textDocument/publishDiagnostics" then [.logMessage]
  else if method = "window/showMessage" then [.logMessage]
  else if method = "window/logMessage" then [.logMessage]
  else if method = "client/registerCapability" then [.reply]
  else if method = "workspace/configuration" then [.reply]
  else if isNotif then [.logUnhandled]
  else [.logMessage, .replyError codeMethodNotFound]

/-- The methods of the non-default cases of `ClientHandler.Handle`. -/
def clientHandledMethods : List String :=
  ["$/progress", "#/progress", "window/workDoneProgress/create",
   "textDocument/publishDiagnostics", "window/showMessage",
   "window/logMessage", "client/registerCapability", "workspace/configuration"]

/-- Configuration of the unhandled-notification logger
(`unhandledNotifConfig`); `off` is level `unhandledNotifOff`, the durations
are in abstract ticks. -/
structure NotifCfg where
  off : Bool
  window : Nat
  burstPerKey : Nat
  deriving Repr, DecidableEq

/-- One per-method bucket (`unhandledNotifBucket`). -/
structure NotifBucket where
  windowStart : Nat
  emitted : Nat
  suppressed : Nat
  suppressMsg : Bool
  deriving Repr, DecidableEq

/-- The log lines `logUnhandledNotification` can emit. -/
inductive NotifLogLine where
  /-- "Unhandled notification suppressed: ..." on window rollover -/
  | summary
  /-- "Unhandled notification flood detected: ..." -/
  | flood
  /-- "Unhandled notification: method ..." (the per-notification line) -/
  | notifLine
  deriving Repr, DecidableEq

/-- `logUnhandledNotification` acting on the bucket of one method:
window rollover with summary flush, then the per-key burst limit, else the
per-notification log line.  Returns the stored bucket and the emitted
lines. -/
def logUnhandledStep (cfg : NotifCfg) (b0 : Option NotifBucket) (now : Nat) :
    NotifBucket × List NotifLogLine :=
  if cfg.off then (b0.getD ⟨now, 0, 0, false⟩, [])
  else
    let b := b0.getD ⟨now, 0, 0, false⟩
    let rolled : NotifBucket × List NotifLogLine :=
      if 0 < cfg.window ∧ cfg.window ≤ now - b.windowStart then
        (⟨now, 0, 0, false⟩,
          if 0 < b.suppressed then [.summary] else [])
      else (b, [])
    let b := rolled.1
    let flushed := rolled.2
    if cfg.burstPerKey = 0 ∨ cfg.burstPerKey ≤ b.emitted then
      let needFlood := !b.suppressMsg && decide (0 < cfg.burstPerKey)
      ({ b with
          suppressed := b.suppressed + 1
          suppressMsg := b.suppressMsg || needFlood },
       flushed ++ (if needFlood then [.flood] else []))
    else
      ({ b with emitted := b.emitted + 1 }, flushed ++ [.notifLine])

/-- The bucket map `unhandledNotifBuckets` keyed by method, with
`logUnhandledStep` applied to the method's own bucket. -/
def logUnhandledByMethod (cfg : NotifCfg) (buckets : List (String × NotifBucket))
    (method : String) (now : Nat) :
    List (String × NotifBucket) × List NotifLogLine :=
  if cfg.off then (buckets, [])
  else
    let stepped := logUnhandledStep cfg ((buckets.lookup method)) now
    ((method, stepped.1) :: buckets.eraseP (fun kv => kv.1 == method), stepped.2)

/-! ### `CheckReadyOrReturn` not-ready payload (mcpserver/tools, lsp_status)

After the 2 s polling loop, for a still-not-ready status the tool returns
`FormatLSPStatusResponse(status, retryAfterMs)` with
`retryAfterMs := 0; if status.State == "busy" || status.State == "starting"
{ retryAfterMs = 2000 }`. -/

/-- The `retry_after_ms` value chosen for a not-ready status payload. -/
def notReadyRetryAfterMs (st : LSPStatus) : Nat :=
  if st.state = "busy" ∨ st.state = "starting" then 2000 else 0

/-! ### `StartWarmup` / `finishWarmup` (bridge/auto_connect.go)

Times are `time.Time` values modelled in whole seconds; `none` stands for
the zero `time.Time` (`IsZero`). -/

/-- The warm-up bookkeeping fields of `MCPLSPBridge`. -/
structure WarmupState where
  lastAttempt : Option Nat
  startedAt : Option Nat
  finishedAt : Option Nat
  running : Bool
  done : Bool
  err : String
  deriving Repr, DecidableEq

/-- Fresh bridge: all warm-up times zero. -/
def warmupInit : WarmupState :=
  { lastAttempt := none, startedAt := none, finishedAt := none,
    running := false, done := false, err := "" }

/-- `StartWarmup`: throttle on the time since the last attempt, then the
done/running short-circuits, then spawn `runWarmup` (the returned `Bool`
is whether the background job was spawned). -/
def startWarmup (s : WarmupState) (now : Nat) : WarmupState × Bool :=
  if (match s.lastAttempt with
      | some t => decide (now - t < 10)
      | none => false) then (s, false)
  else
    let s1 := { s with lastAttempt := some now }
    if s1.done then (s1, false)
    else if s1.running then (s1, false)
    else
      ({ s1 with
          running := true
          startedAt := (match s1.startedAt with
                        | none => some now
                        | some t => some t)
          err := "" }, true)

/-- `finishWarmup` with the outcome of `runWarmup`. -/
def finishWarmup (s : WarmupState) (now : Nat) (errMsg : Option String) :
    WarmupState :=
  { s with
    running := false
    finishedAt := some now
    err := (match errMsg with | some e => e | none => "")
    done := (match errMsg with | some _ => false | none => true) }

/-! ### Session daemon `readResponses`: LSP error replies become results -/

/-- A JSON-RPC error object `{code, message}` of an LSP server reply. -/
structure RPCErrorObj where
  code : Int
  message : String
  deriving Repr, DecidableEq

/-- A reply read from the LSP child by `readResponses`. -/
structure LSPReply where
  id : Int
  result : String
  err : Option RPCErrorObj
  deriving Repr, DecidableEq

/-- The value `readResponses` delivers on the waiter's channel: the
marshaled error object when `baseMsg.Error != nil`, else the raw result. -/
inductive Delivered where
  | raw (result : String)
  | errObject (code : Int) (message : String)
  deriving Repr, DecidableEq

/-- `readResponses` channel delivery for one reply. -/
def channelValue (r : LSPReply) : Delivered :=
  match r.err with
  | some e => .errObject e.code e.message
  | none => .raw r.result

/-- A daemon API response for a forwarded request, as `HandleClient`
writes it. -/
inductive APIForwardResponse where
  | success (id : Int) (result : Delivered)
  | rpcError (id : Int) (code : Int) (message : String)
  deriving Repr, DecidableEq

/-- End-to-end daemon handling of a forwarded request once the LSP child
has replied: `sendRequest` returns the channel value with a nil error,
`handleAPIRequest` passes it through, and `HandleClient` writes a success
response around it. -/
def daemonForwardResponse (apiId : Int) (r : LSPReply) : APIForwardResponse :=
  .success apiId (channelValue r)

/-! ### Path and URI layer (utils)

Go strings here are byte strings manipulated index-wise; they are modelled
as `List Char` (the bridge's paths are ASCII, where Go's byte-wise
`len`/slicing coincide with character counting, and `EqualFold`'s Unicode
simple folding coincides with ASCII case folding).  The runtime OS of the
bridge container is Linux, so `filepath.ToSlash`/`FromSlash` are the
identity and `filepath.Clean` is `path.Clean`. -/

/-- ASCII lower-casing of one byte (Go `unicode.ToLower` on ASCII). -/
def asciiLower (c : Char) : Char :=
  if 'A' ≤ c ∧ c ≤ 'Z' then Char.ofNat (c.toNat + 32) else c

/-- Go `strings.EqualFold` restricted to ASCII byte strings. -/
def listEqFold (a b : List Char) : Bool :=
  a.map asciiLower == b.map asciiLower

/-- `hasPrefixFold`: byte-length guard then `EqualFold(p[:len(root)], root)`. -/
def foldHasPrefixL (p root : List Char) : Bool :=
  if p.length < root.length then false
  else listEqFold (p.take root.length) root

/-- Go `strings.ReplaceAll(p, "\\", "/")`. -/
def repBS (p : List Char) : List Char :=
  p.map (fun c => if c = '\\' then '/' else c)

/-- Go `strings.ReplaceAll(p, "//", "/")` (single left-to-right pass:
at each position a `"//"` is replaced by `"/"` and scanning resumes after
the replacement). -/
def repDS : List Char → List Char
  | [] => []
  | c :: rest =>
    if c = '/' then
      match rest with
      | '/' :: rest2 => '/' :: repDS rest2
      | [] => ['/']
      | d :: rest2 => '/' :: d :: repDS rest2
    else c :: repDS rest

/-- Split a byte string at every `'/'` (Go `strings.Split(p, "/")`). -/
def splitOnSlash : List Char → List (List Char)
  | [] => [[]]
  | c :: cs =>
    if c = '/' then [] :: splitOnSlash cs
    else
      match splitOnSlash cs with
      | [] => [[c]]
      | s :: ss => (c :: s) :: ss

/-- Join path elements with `'/'`. -/
def intercalateSlash : List (List Char) → List Char
  | [] => []
  | [x] => x
  | x :: xs => x ++ '/' :: intercalateSlash xs

/-- One element step of Go `path.Clean`'s lazybuf loop, on the stack of
output elements (in reverse): skip empty and `.` elements, pop on `..`
(kept literally when not rooted and nothing to pop), push otherwise. -/
def cleanStep (rooted : Bool) (acc : List (List Char)) (e : List Char) :
    List (List Char) :=
  if e = [] ∨ e = ['.'] then acc
  else if e = ['.', '.'] then
    match acc with
    | [] => if rooted then [] else [['.', '.']]
    | top :: r => if top = ['.', '.'] then e :: acc else r
  else e :: acc

/-- Reassembly of the cleaned elements (the tail of Go `path.Clean`):
empty output becomes `/` or `.`, otherwise the joined elements with the
root slash restored. -/
def pathCleanParts (rooted : Bool) (parts : List (List Char)) : List Char :=
  if parts = [] then (if rooted then ['/'] else ['.'])
  else (if rooted then '/' :: intercalateSlash parts else intercalateSlash parts)

/-- Go `path.Clean` (element-wise formulation of the lazybuf algorithm). -/
def pathClean (p : List Char) : List Char :=
  if p = [] then ['.']
  else
    pathCleanParts (startsWithL ['/'] p)
      (((splitOnSlash p).foldl (cleanStep (startsWithL ['/'] p)) []).reverse)

/-- Go `path.Join(a, b)`: join the non-empty elements and `Clean`. -/
def pathJoin (a b : List Char) : List Char :=
  if a = [] then (if b = [] then [] else pathClean b)
  else pathClean (a ++ '/' :: b)

/-- `normalizePathSeparators`: backslashes to slashes, then `path.Clean`. -/
def normalizeSeparators (p : List Char) : List Char :=
  pathClean (repBS p)

/-- Go `strings.TrimPrefix(s, "/")` (one occurrence). -/
def trimOneLeadingSlash : List Char → List Char
  | '/' :: t => t
  | s => s

/-- Go `strings.TrimSuffix(s, "/")` (one occurrence). -/
def trimOneTrailingSlash (s : List Char) : List Char :=
  if s.getLast? = some '/' then s.dropLast else s

/-! #### `PathToFileURI` / `FileURIToPath` (utils URI conversion) -/

/-- ASCII whitespace, for Go `strings.TrimSpace` on ASCII input. -/
def isSpaceByte (c : Char) : Bool :=
  c = ' ' ∨ c = '\t' ∨ c = '\n' ∨ c = '\x0b' ∨ c = '\x0c' ∨ c = '\r'

/-- Go `strings.TrimSpace` on ASCII byte strings. -/
def trimSpaceL (s : List Char) : List Char :=
  ((s.dropWhile isSpaceByte).reverse.dropWhile isSpaceByte).reverse

/-- `IsWindowsAbsPath`: at least two bytes, a letter then `':'`. -/
def isWindowsAbsPathL (p : List Char) : Bool :=
  match p with
  | a :: b :: _ =>
    (('A' ≤ a ∧ a ≤ 'Z') ∨ ('a' ≤ a ∧ a ≤ 'z')) ∧ b = ':'
  | _ => false

/-- Should a byte be percent-escaped in a URI path?  Go
`net/url.shouldEscape(c, encodePath)`: keep alphanumerics, the unreserved
marks `-_.~`, and of the reserved set everything except `'?'`. -/
def shouldEscapePathByte (c : Char) : Bool :=
  if ('a' ≤ c ∧ c ≤ 'z') ∨ ('A' ≤ c ∧ c ≤ 'Z') ∨ ('0' ≤ c ∧ c ≤ '9') then false
  else if c = '-' ∨ c = '_' ∨ c = '.' ∨ c = '~' then false
  else if c = '$' ∨ c = '&' ∨ c = '+' ∨ c = ',' ∨ c = '/' ∨ c = ':' ∨
      c = ';' ∨ c = '=' ∨ c = '@' then false
  else true

/-- Go's upper-case hex digits (`upperhex`). -/
def hexDigitUpper (n : Nat) : Char :=
  if n < 10 then Char.ofNat ('0'.toNat + n)
  else Char.ofNat ('A'.toNat + (n - 10))

/-- Percent-escaping of a URI path, byte-wise (Go `url.escape` with
`encodePath`, as used by `url.URL.String` via `EscapedPath`). -/
def escapePath (s : List Char) : List Char :=
  s.flatMap (fun c =>
    if shouldEscapePathByte c then
      ['%', hexDigitUpper (c.toNat / 16), hexDigitUpper (c.toNat % 16)]
    else [c])

/-- Value of a hex digit (Go `unhex`); `none` when not a hex digit. -/
def hexVal (c : Char) : Option Nat :=
  if '0' ≤ c ∧ c ≤ '9' then some (c.toNat - '0'.toNat)
  else if 'a' ≤ c ∧ c ≤ 'f' then some (c.toNat - 'a'.toNat + 10)
  else if 'A' ≤ c ∧ c ≤ 'F' then some (c.toNat - 'A'.toNat + 10)
  else none

/-- Go `url.PathUnescape` (also the unescaping `url.Parse` itself applies
to the path component): decode every `%XX`, error on a malformed escape. -/
def pathUnescape : List Char → Except String (List Char)
  | [] => .ok []
  | c :: rest =>
    if c = '%' then
      match rest with
      | a :: b :: rest2 =>
        match hexVal a, hexVal b with
        | some ha, some hb =>
          match pathUnescape rest2 with
          | .ok t => .ok (Char.ofNat (ha * 16 + hb) :: t)
          | .error e => .error e
        | _, _ => .error "invalid URL escape"
      | _ => .error "invalid URL escape"
    else
      match pathUnescape rest with
      | .ok t => .ok (c :: t)
      | .error e => .error e

/-- `len(s) >= 2 && s[1] == ':'` → prepend `"/"` (the drive-letter rule of
`PathToFileURI`, expressed by shape). -/
def prependSlashIfDrive (s : List Char) : List Char :=
  match s with
  | a :: ':' :: rest => '/' :: a :: ':' :: rest
  | _ => s

/-- `strings.HasPrefix(p, "/") && len(p) >= 3 && p[2] == ':'` → drop the
leading slash (the drive-letter rule of `FileURIToPath`, by shape). -/
def stripDriveSlash (s : List Char) : List Char :=
  match s with
  | '/' :: a :: ':' :: rest => a :: ':' :: rest
  | _ => s

/-- `PathToFileURI`, on a Linux host with working directory `cwd`
(`filepath.Abs` joins relative paths with the working directory;
`filepath.ToSlash`/`Clean` are the POSIX ones).  The final
`url.URL{Scheme: "file", Path: slashPath}.String()` writes
`"file://" ++ EscapedPath`. -/
def pathToFileURI (cwd p0 : List Char) : Except String (List Char) :=
  if trimSpaceL p0 = [] then .error "path is empty"
  else if isWindowsAbsPathL (trimSpaceL p0) then
    -- Windows absolute: no Abs, backslash replacement then the "//" pass
    .ok ("file://".toList ++
      escapePath (prependSlashIfDrive (repDS (repBS (trimSpaceL p0)))))
  else if startsWithL ['/'] (trimSpaceL p0) then
    -- POSIX absolute: filepath.Abs is Clean; then ToSlash(Clean(path))
    .ok ("file://".toList ++
      escapePath (prependSlashIfDrive (pathClean (pathClean (trimSpaceL p0)))))
  else
    -- relative: filepath.Abs joins with the working directory
    .ok ("file://".toList ++
      escapePath (prependSlashIfDrive
        (pathClean (pathClean (cwd ++ '/' :: trimSpaceL p0)))))

/-- `FileURIToPath` for URIs with an authority component
(`file://host/path`, `file:///path`), the only form the bridge produces
and consumes: `url.Parse` splits off the host and percent-decodes the
path, then the function applies `url.PathUnescape` to the already decoded
path a second time, keeps UNC hosts, and strips the leading slash of a
`/C:/...` drive-letter path.  (`file:` URIs without `//` put the rest in
`URL.Opaque` and are not modelled; no caller builds them.) -/
def fileURIToPath (uri : List Char) : Except String (List Char) :=
  if startsWithL ("file://".toList) uri then
    match pathUnescape ((uri.drop 7).drop
        ((uri.drop 7).takeWhile (fun c => !(c = '/'))).length) with
    | .error _ => .error "invalid uri"
    | .ok p0 =>
      match pathUnescape p0 with
      | .error e => .error ("invalid uri path escape: " ++ e)
      | .ok p1 =>
        if (uri.drop 7).takeWhile (fun c => !(c = '/')) ≠ [] then
          .ok ('/' :: '/' :: (uri.drop 7).takeWhile (fun c => !(c = '/')) ++ p1)
        else .ok (stripDriveSlash p1)
  else .error "not a file uri"

/-! #### `DockerPathMapper` (utils/pathmap.go) -/

/-- The mapper state: both roots slash-normalized at construction. -/
structure DockerPathMapperL where
  hostRoot : List Char
  containerRoot : List Char
  enabled : Bool
  deriving Repr, DecidableEq

/-- `NewDockerPathMapper`. -/
def newDockerPathMapper (hostRoot containerRoot : List Char) :
    Except String DockerPathMapperL :=
  if hostRoot = [] then .error "host root path cannot be empty"
  else if containerRoot = [] then .error "container root path cannot be empty"
  else
    let cleanHostRoot := normalizeSeparators hostRoot
    let cleanContainerRoot := trimOneTrailingSlash containerRoot
    if startsWithL ['/'] cleanContainerRoot then
      .ok { hostRoot := cleanHostRoot, containerRoot := cleanContainerRoot,
            enabled := true }
    else .error "container root must be an absolute path starting with /"

/-- The body of `HostToContainer` once the input has been resolved to a
plain file path (`filePath` in the source): prefix check against the host
root, relative-part extraction, join to the container root and the final
`path.Clean`. -/
def mapHostPath (dpm : DockerPathMapperL) (filePath : List Char) :
    Except String (List Char) :=
  if foldHasPrefixL (normalizeSeparators filePath) dpm.hostRoot then
    .ok (pathClean
      (if trimOneLeadingSlash
            ((normalizeSeparators filePath).drop dpm.hostRoot.length) = []
       then dpm.containerRoot
       else pathJoin dpm.containerRoot
         (trimOneLeadingSlash
           ((normalizeSeparators filePath).drop dpm.hostRoot.length))))
  else .error "path is outside mounted directory"

/-- `HostToContainer`: `file://` inputs are unwrapped first and rewrapped
on success; plain paths go straight to the mapping body. -/
def hostToContainer (dpm : DockerPathMapperL) (hostPath : List Char) :
    Except String (List Char) :=
  if !dpm.enabled then .ok hostPath
  else if hostPath = [] then .error "host path cannot be empty"
  else if startsWithL ("file://".toList) hostPath then
    match fileURIToPath hostPath with
    | .error e => .error e
    | .ok fp =>
      match mapHostPath dpm fp with
      | .error e => .error e
      | .ok containerPath => .ok ("file://".toList ++ containerPath)
  else mapHostPath dpm hostPath

/-- `ContainerToHost`. -/
def containerToHost (dpm : DockerPathMapperL) (containerPath : List Char) :
    Except String (List Char) :=
  if !dpm.enabled then .ok containerPath
  else if containerPath = [] then .error "container path cannot be empty"
  else if startsWithL dpm.containerRoot (normalizeSeparators containerPath) then
    .ok (pathClean
      (if trimOneLeadingSlash
            ((normalizeSeparators containerPath).drop dpm.containerRoot.length) = []
       then dpm.hostRoot
       else pathJoin dpm.hostRoot
         (trimOneLeadingSlash
           ((normalizeSeparators containerPath).drop dpm.containerRoot.length))))
  else .error "path is outside container root"

/-- The configured pair of the claim: host root `D:/My Projects/Projects 1C`
(slash form after construction), container root `/projects`. -/
def hostRootChars : List Char := "D:/My Projects/Projects 1C".toList

/-- The mapper built from this pair. -/
def exampleMapper : DockerPathMapperL :=
  { hostRoot := hostRootChars
    containerRoot := "/projects".toList
    enabled := true }

/-- A clean relative path element: non-empty, not a dot element, and
containing neither a separator nor a backslash (so that
`path.Clean`/separator normalization leave it alone). -/
def GoodElem (e : List Char) : Prop :=
  e ≠ [] ∧ e ≠ ['.'] ∧ e ≠ ['.', '.'] ∧ '/' ∉ e ∧ '\\' ∉ e

instance (e : List Char) : Decidable (GoodElem e) := by
  unfold GoodElem; infer_instance

end Bridge

namespace Bridge

/-! ## Theorems -/

/-- **C1.** For every client list, `BuildLSPStatus` reports `ready = true`
iff at least one client is connected and no client has a connection-level
problem (disconnected status, not connected, or a last error containing
"connection is closed", "already disconnected" or "EOF"); busy conditions
(active progress, indexing) do not appear in the condition, so a busy
status alone leaves `ready = true`. -/
theorem buildLSPStatus_ready_iff (clients : List ClientInfo) :
    (buildLSPStatus clients).ready = true ↔
      ((∃ c ∈ clients, c.connected = true) ∧
        ∀ c ∈ clients, isConnError c = false) := by
  unfold buildLSPStatus connectedCount anyConnError
  by_cases h : clients = []
  · subst h; simp
  · simp only [if_neg h, Bool.and_eq_true, decide_eq_true_eq, Bool.not_eq_true',
      List.any_eq_false, List.countP_pos_iff, Bool.not_eq_true]

/-- **C2.** Idempotent `didOpen` in the session daemon: a `didOpen` for a
URI already in the open set returns `"already_open"`, sends nothing to the
child and leaves the state unchanged; two consecutive `didOpen`s for a URI
not yet open send exactly one `textDocument/didOpen` notification to the
child in total, the second returns `"already_open"`, and the URI is open
afterwards. -/
theorem handleDidOpen_idempotent (s : DocState) (uri : String) :
    (uri ∈ s.openDocs →
      handleDidOpen s uri = (some "already_open", [], s)) ∧
    (uri ∉ s.openDocs →
      (handleDidOpen s uri).2.1 ++
          (handleDidOpen (handleDidOpen s uri).2.2 uri).2.1 =
        [{ method := "textDocument/didOpen", uri := uri }] ∧
      (handleDidOpen (handleDidOpen s uri).2.2 uri).1 = some "already_open" ∧
      uri ∈ (handleDidOpen (handleDidOpen s uri).2.2 uri).2.2.openDocs) := by
  constructor
  · intro hmem
    simp [handleDidOpen, docInsert, hmem]
  · intro hmem
    simp [handleDidOpen, docInsert, hmem]

/-- Witness for C2 at a concrete state and URI. -/
theorem handleDidOpen_idempotent_witness :
    "file:///projects/a.bsl" ∉ (⟨[]⟩ : DocState).openDocs ∧
      ((handleDidOpen ⟨[]⟩ "file:///projects/a.bsl").2.1 ++
          (handleDidOpen (handleDidOpen ⟨[]⟩ "file:///projects/a.bsl").2.2
            "file:///projects/a.bsl").2.1 =
        [{ method := "textDocument/didOpen", uri := "file:///projects/a.bsl" }] ∧
      (handleDidOpen (handleDidOpen ⟨[]⟩ "file:///projects/a.bsl").2.2
          "file:///projects/a.bsl").1 = some "already_open" ∧
      "file:///projects/a.bsl" ∈
        (handleDidOpen (handleDidOpen ⟨[]⟩ "file:///projects/a.bsl").2.2
          "file:///projects/a.bsl").2.2.openDocs) :=
  ⟨by decide,
    (handleDidOpen_idempotent ⟨[]⟩ "file:///projects/a.bsl").2 (by decide)⟩

/-- **C3.** `SessionClient.Call` pending-map discipline: when the deadline
fires the call returns the deadline error, and on every outcome (reply or
deadline) the id registered for the request is present while waiting and
absent from the pending map after the call returns, which is again the
original map. -/
theorem sessionCall_pending (pendingBefore : List Int) (id : Int)
    (outcome : CallOutcome) (hfresh : id ∉ pendingBefore) :
    (outcome = .deadline →
      (sessionCall pendingBefore id outcome).result = .error .deadlineExceeded) ∧
    id ∈ (sessionCall pendingBefore id outcome).pendingDuring ∧
    id ∉ (sessionCall pendingBefore id outcome).pendingAfter ∧
    (sessionCall pendingBefore id outcome).pendingAfter = pendingBefore := by
  refine ⟨?_, ?_, ?_, ?_⟩
  · intro h; subst h; rfl
  · simp [sessionCall]
  · simp [sessionCall, List.erase_cons_head]
    exact hfresh
  · simp [sessionCall, List.erase_cons_head]

/-- Witness for C3: a 50 ms-style deadline call with fresh id 1 against an
empty pending map. -/
theorem sessionCall_pending_witness :
    (1 : Int) ∉ ([] : List Int) ∧
      ((CallOutcome.deadline = .deadline →
        (sessionCall [] 1 .deadline).result = .error .deadlineExceeded) ∧
      (1 : Int) ∈ (sessionCall [] 1 .deadline).pendingDuring ∧
      (1 : Int) ∉ (sessionCall [] 1 .deadline).pendingAfter ∧
      (sessionCall [] 1 .deadline).pendingAfter = []) :=
  ⟨by decide, sessionCall_pending [] 1 .deadline (by decide)⟩

/-- **C6 (counterexample).** The daemon's reply to the unknown API method
`"foo/bar"` is a JSON-RPC error with code `-32603`, not `-32601` as
claimed: `handleAPIRequest`'s default branch returns a plain error and
`HandleClient` wraps every handler error via `sendAPIError(..., -32603, ...)`. -/
theorem daemonUnknownMethod_counterexample :
    handleClientReply 7 "foo/bar" =
      .rpcError 7 (-32603) "unknown method: foo/bar" ∧
    ((-32603 : Int) = -32601 → False) := by
  constructor
  · rfl
  · decide

/-- **C6 (amended).** For every session-daemon API request whose method is
not one of the handled or forwarded methods, the daemon replies with a
JSON-RPC error response whose error code is `-32603` and whose message is
`"unknown method: <method>"`. -/
theorem daemonUnknownMethod_replies (method : String) (id : Int)
    (h : method ∉ handledAPIMethods) :
    handleClientReply id method =
      .rpcError id (-32603) ("unknown method: " ++ method) := by
  unfold handleClientReply handleAPIRequestOutcome
  simp [h]

/-- Witness for the amended C6 at the unknown method `"foo/bar"`. -/
theorem daemonUnknownMethod_replies_witness :
    "foo/bar" ∉ handledAPIMethods ∧
      handleClientReply 7 "foo/bar" =
        .rpcError 7 (-32603) ("unknown method: " ++ "foo/bar") :=
  ⟨by decide, daemonUnknownMethod_replies "foo/bar" 7 (by decide)⟩

/-- `List.lookup` is unchanged by erasing the entry of a different key. -/
theorem lookup_eraseP_ne (buckets : List (String × NotifBucket))
    (method other : String) (h : other ≠ method) :
    (buckets.eraseP (fun kv => kv.1 == method)).lookup other =
      buckets.lookup other := by
  induction buckets with
  | nil => rfl
  | cons kv t ih =>
    obtain ⟨k, v⟩ := kv
    by_cases hk : k = method
    · subst hk
      have ho1 : (other == k) = false := by simp [h]
      simp [List.eraseP_cons, List.lookup, ho1]
    · have hk' : ((k, v).1 == method) = false := by simp [hk]
      simp only [List.eraseP_cons, hk', Bool.false_eq_true, if_false,
        List.lookup, ih]

/-- **C7.** For every server message whose method `ClientHandler.Handle`
does not recognize: a request is answered with a JSON-RPC
method-not-found error (code `-32601`); a notification is only handed to
the rate-limited unhandled-notification logger and no reply of any kind is
produced — moreover the logger suppresses the per-notification line once
the method's bucket has exhausted its per-window burst, and its bucket map
is keyed per method, leaving other methods' buckets untouched. -/
theorem clientHandle_unknown (method : String)
    (h : method ∉ clientHandledMethods) :
    clientHandle method false = [.logMessage, .replyError (-32601)] ∧
    clientHandle method true = [.logUnhandled] ∧
    (∀ code, HandlerAction.replyError code ∉ clientHandle method true) ∧
    HandlerAction.reply ∉ clientHandle method true ∧
    (∀ cfg b now, cfg.off = false → cfg.burstPerKey ≤ b.emitted →
      now - b.windowStart < cfg.window →
      NotifLogLine.notifLine ∉ (logUnhandledStep cfg (some b) now).2 ∧
      (logUnhandledStep cfg (some b) now).1.emitted = b.emitted) ∧
    (∀ cfg buckets now other, other ≠ method →
      ((logUnhandledByMethod cfg buckets method now).1.lookup other) =
        buckets.lookup other) := by
  simp only [clientHandledMethods, List.mem_cons, List.mem_singleton,
    not_or] at h
  obtain ⟨h1, h2, h3, h4, h5, h6, h7, h8, -⟩ := h
  have hc : ∀ b : Bool, clientHandle method b =
      (if b then [.logUnhandled]
       else [.logMessage, .replyError codeMethodNotFound]) := by
    intro b
    unfold clientHandle
    simp [h1, h2, h3, h4, h5, h6, h7, h8]
  refine ⟨by simpa [codeMethodNotFound] using hc false, by simpa using hc true,
    ?_, ?_, ?_, ?_⟩
  · intro code
    simp [hc true]
  · simp [hc true]
  · intro cfg b now hoff hsat hwin
    have hroll : ¬ (0 < cfg.window ∧ cfg.window ≤ now - b.windowStart) := by
      rintro ⟨-, hle⟩
      exact absurd hwin (not_lt.mpr hle)
    constructor
    · unfold logUnhandledStep
      simp only [hoff, Bool.false_eq_true, if_false, Option.getD_some,
        if_neg hroll]
      have : cfg.burstPerKey = 0 ∨ cfg.burstPerKey ≤ b.emitted := .inr hsat
      simp only [if_pos this]
      simp
    · unfold logUnhandledStep
      simp only [hoff, Bool.false_eq_true, if_false, Option.getD_some,
        if_neg hroll]
      have : cfg.burstPerKey = 0 ∨ cfg.burstPerKey ≤ b.emitted := .inr hsat
      simp only [if_pos this]
  · intro cfg buckets now other hne
    unfold logUnhandledByMethod
    by_cases hoff : cfg.off
    · simp [hoff]
    · have ho : (other == method) = false := by simp [hne]
      simp [hoff, List.lookup, ho, lookup_eraseP_ne buckets method other hne]

/-- Witness for C7 at the unknown method `"telemetry/event"`, a saturated
bucket and a foreign method key. -/
theorem clientHandle_unknown_witness :
    "telemetry/event" ∉ clientHandledMethods ∧
      clientHandle "telemetry/event" false =
        [.logMessage, .replyError (-32601)] ∧
      clientHandle "telemetry/event" true = [.logUnhandled] :=
  ⟨by decide,
    (clientHandle_unknown "telemetry/event" (by decide)).1,
    (clientHandle_unknown "telemetry/event" (by decide)).2.1⟩

/-- **C8 (counterexample).** A disconnected client yields a not-ready
status in state `"error"`, and the not-ready payload then carries
`retry_after_ms = 0`, not `2000`: the retry value is only set for the
`"busy"` and `"starting"` states. -/
theorem notReadyRetry_counterexample :
    (buildLSPStatus [⟨false, "disconnected", "", 0, none⟩]).ready = false ∧
    (buildLSPStatus [⟨false, "disconnected", "", 0, none⟩]).state = "error" ∧
    notReadyRetryAfterMs (buildLSPStatus [⟨false, "disconnected", "", 0, none⟩]) = 0 ∧
    ((0 : Nat) = 2000 → False) := by
  refine ⟨by decide, by decide, by decide, by decide⟩

/-- **C8 (amended).** Whenever the readiness gate's final status is not
ready, the returned payload has `retry_after_ms = 2000` exactly when no
client has a connection-level error (states `"busy"`/`"starting"`); in the
`"error"` state the payload carries `retry_after_ms = 0`. -/
theorem notReadyRetry_iff (clients : List ClientInfo)
    (h : (buildLSPStatus clients).ready = false) :
    (notReadyRetryAfterMs (buildLSPStatus clients) = 2000 ↔
      ∀ c ∈ clients, isConnError c = false) := by
  by_cases hnil : clients = []
  · subst hnil
    simp [buildLSPStatus, notReadyRetryAfterMs]
  · have hb : buildLSPStatus clients =
        { ready := decide (0 < connectedCount clients) && !anyConnError clients
          state := statusState clients } := by
      simp [buildLSPStatus, hnil]
    rw [hb] at h ⊢
    by_cases hE : anyConnError clients = true
    · have hstate : statusState clients = "error" := by
        simp [statusState, hE]
      obtain ⟨c, hc, hcE⟩ := List.any_eq_true.mp hE
      simp only [notReadyRetryAfterMs, hstate]
      constructor
      · intro habs
        simp at habs
      · intro hall
        exact absurd (hall c hc) (by simp [hcE])
    · have hE' : anyConnError clients = false := by
        simpa using hE
      have hcc : connectedCount clients = 0 := by
        rw [hE'] at h
        simp at h
        omega
      have hstate : statusState clients = "busy" ∨ statusState clients = "starting" := by
        unfold statusState
        rw [hE']
        by_cases hbusy : anyBusy clients = true
        · simp [hbusy]
        · simp [hbusy, hcc]
      have hretry : notReadyRetryAfterMs
          { ready := decide (0 < connectedCount clients) && !anyConnError clients
            state := statusState clients } = 2000 := by
        unfold notReadyRetryAfterMs
        rcases hstate with hs | hs <;> simp [hs]
      rw [hretry]
      simp only [true_iff]
      intro c hc
      exact (List.any_eq_false.mp hE') c hc |> fun hx => by
        simpa using hx

/-- Witness for the amended C8: one disconnected client (error state,
retry 0) instantiating the equivalence. -/
theorem notReadyRetry_iff_witness :
    (buildLSPStatus [⟨false, "disconnected", "", 0, none⟩]).ready = false ∧
      (notReadyRetryAfterMs (buildLSPStatus [⟨false, "disconnected", "", 0, none⟩]) = 2000 ↔
        ∀ c ∈ [(⟨false, "disconnected", "", 0, none⟩ : ClientInfo)],
          isConnError c = false) :=
  ⟨by decide, notReadyRetry_iff [⟨false, "disconnected", "", 0, none⟩] (by decide)⟩

/-- **C9 (counterexample).** A warm-up started at `t = 0` that fails at
`t = 15` is restarted by `StartWarmup` at `t = 20`, although the previous
attempt finished only 5 s (&lt; 10 s) earlier: the throttle compares against
`warmupLastAttempt` (when the previous attempt began), not against
`warmupFinishedAt`. -/
theorem startWarmup_throttle_counterexample :
    (startWarmup warmupInit 0).2 = true ∧
    (finishWarmup (startWarmup warmupInit 0).1 15 (some "warmup failed")).finishedAt
      = some 15 ∧
    (finishWarmup (startWarmup warmupInit 0).1 15 (some "warmup failed")).done
      = false ∧
    (finishWarmup (startWarmup warmupInit 0).1 15 (some "warmup failed")).running
      = false ∧
    (20 : Nat) - 15 < 10 ∧
    (startWarmup (finishWarmup (startWarmup warmupInit 0).1 15
        (some "warmup failed")) 20).2 = true := by
  refine ⟨rfl, rfl, rfl, rfl, by decide, rfl⟩

/-- **C9 (amended).** `StartWarmup` never spawns the background job when a
warm-up is already running, when warm-up has already completed
successfully, or when the previous `StartWarmup` attempt *began* less than
10 seconds earlier (the throttle is on attempt start time, not finish
time). -/
theorem startWarmup_suppression (s : WarmupState) (now : Nat) :
    (s.running = true → (startWarmup s now).2 = false) ∧
    (s.done = true → (startWarmup s now).2 = false) ∧
    (∀ t, s.lastAttempt = some t → now - t < 10 →
      (startWarmup s now).2 = false) := by
  refine ⟨?_, ?_, ?_⟩
  · intro h
    unfold startWarmup
    split
    · rfl
    · simp [h]
  · intro h
    unfold startWarmup
    split
    · rfl
    · simp [h]
  · intro t ht hlt
    unfold startWarmup
    rw [ht]
    simp [hlt]

/-- Witness for C9: with a warm-up already running at `t = 0`, the next
`StartWarmup` spawns nothing. -/
theorem startWarmup_suppression_witness :
    ((startWarmup warmupInit 0).1.running = true) ∧
      (startWarmup (startWarmup warmupInit 0).1 20).2 = false :=
  ⟨by decide, (startWarmup_suppression (startWarmup warmupInit 0).1 20).1 (by decide)⟩

/-- **C10.** When the managed LSP server answers a forwarded request with
a JSON-RPC error, the daemon delivers the marshaled `{code, message}`
object on the waiter's channel in place of the result, and the API client
receives a *success* response whose result field is that error object —
never a JSON-RPC error response. -/
theorem daemonForward_error_as_result (apiId id : Int) (res : String)
    (code : Int) (msg : String) :
    daemonForwardResponse apiId ⟨id, res, some ⟨code, msg⟩⟩ =
      .success apiId (.errObject code msg) ∧
    ∀ c m, daemonForwardResponse apiId ⟨id, res, some ⟨code, msg⟩⟩ ≠
      .rpcError apiId c m := by
  constructor
  · rfl
  · intro c m hcontra
    simp [daemonForwardResponse, channelValue] at hcontra

/-! ### Path-layer lemmas for the host/container mapping round trip -/

theorem startsWithL_self_append (a b : List Char) :
    startsWithL a (a ++ b) = true := by
  induction a with
  | nil => rfl
  | cons c cs ih => simp [startsWithL, ih]

theorem listEqFold_length (a b : List Char) (h : listEqFold a b = true) :
    a.length = b.length := by
  unfold listEqFold at h
  have h2 := eq_of_beq h
  simpa using congrArg List.length h2

theorem splitOnSlash_noSlash (x : List Char) (h : '/' ∉ x) :
    splitOnSlash x = [x] := by
  induction x with
  | nil => rfl
  | cons c cs ih =>
    have hc : ¬ c = '/' := by rintro rfl; exact h (List.mem_cons_self _ _)
    have hcs : '/' ∉ cs := fun hh => h (List.mem_cons_of_mem c hh)
    simp [splitOnSlash, hc, ih hcs]

theorem splitOnSlash_append (x t : List Char) (h : '/' ∉ x) :
    splitOnSlash (x ++ '/' :: t) = x :: splitOnSlash t := by
  induction x with
  | nil => simp [splitOnSlash]
  | cons c cs ih =>
    have hc : ¬ c = '/' := by rintro rfl; exact h (List.mem_cons_self _ _)
    have hcs : '/' ∉ cs := fun hh => h (List.mem_cons_of_mem c hh)
    simp [splitOnSlash, hc, ih hcs]

theorem intercalateSlash_cons (x : List Char) (xs : List (List Char))
    (h : xs ≠ []) :
    intercalateSlash (x :: xs) = x ++ '/' :: intercalateSlash xs := by
  cases xs with
  | nil => exact absurd rfl h
  | cons y ys => rfl

theorem splitOnSlash_intercalate (parts : List (List Char)) (hne : parts ≠ [])
    (h : ∀ e ∈ parts, '/' ∉ e) :
    splitOnSlash (intercalateSlash parts) = parts := by
  induction parts with
  | nil => exact absurd rfl hne
  | cons p0 rest ih =>
    cases rest with
    | nil => simpa [intercalateSlash] using splitOnSlash_noSlash p0 (h p0 (by simp))
    | cons r1 rs =>
      have h0 : '/' ∉ p0 := h p0 (by simp)
      have hrest : ∀ e ∈ r1 :: rs, '/' ∉ e := fun e he => h e (by simp [he])
      calc splitOnSlash (intercalateSlash (p0 :: r1 :: rs))
          = splitOnSlash (p0 ++ '/' :: intercalateSlash (r1 :: rs)) := rfl
        _ = p0 :: splitOnSlash (intercalateSlash (r1 :: rs)) :=
            splitOnSlash_append _ _ h0
        _ = p0 :: (r1 :: rs) := by rw [ih (by simp) hrest]

theorem cleanStep_good (rooted : Bool) (acc : List (List Char)) (e : List Char)
    (h : GoodElem e) : cleanStep rooted acc e = e :: acc := by
  obtain ⟨h1, h2, h3, -, -⟩ := h
  unfold cleanStep
  rw [if_neg (by simp [h1, h2]), if_neg h3]

theorem foldl_cleanStep_good (rooted : Bool) (parts : List (List Char))
    (acc : List (List Char)) (h : ∀ e ∈ parts, GoodElem e) :
    parts.foldl (cleanStep rooted) acc = parts.reverse ++ acc := by
  induction parts generalizing acc with
  | nil => simp
  | cons e t ih =>
    rw [List.foldl_cons, cleanStep_good rooted acc e (h e (by simp)),
      ih (e :: acc) (fun x hx => h x (by simp [hx]))]
    simp

theorem intercalateSlash_ne_nil (parts : List (List Char)) (hne : parts ≠ [])
    (h : ∀ e ∈ parts, e ≠ []) : intercalateSlash parts ≠ [] := by
  cases parts with
  | nil => exact absurd rfl hne
  | cons p0 rest =>
    cases rest with
    | nil => simpa [intercalateSlash] using h p0 (by simp)
    | cons r1 rs =>
      have h0 : p0 ≠ [] := h p0 (by simp)
      cases p0 with
      | nil => exact absurd rfl h0
      | cons c cs => simp [intercalateSlash]

theorem intercalateSlash_append (A B : List (List Char)) (hA : A ≠ [])
    (hB : B ≠ []) :
    intercalateSlash (A ++ B) =
      intercalateSlash A ++ '/' :: intercalateSlash B := by
  induction A with
  | nil => exact absurd rfl hA
  | cons a as ih =>
    cases as with
    | nil =>
      cases B with
      | nil => exact absurd rfl hB
      | cons b bs => simp [intercalateSlash]
    | cons a1 as1 =>
      calc intercalateSlash ((a :: a1 :: as1) ++ B)
          = a ++ '/' :: intercalateSlash ((a1 :: as1) ++ B) := rfl
        _ = a ++ '/' :: (intercalateSlash (a1 :: as1) ++ '/' :: intercalateSlash B) := by
            rw [ih (by simp)]
        _ = intercalateSlash (a :: a1 :: as1) ++ '/' :: intercalateSlash B := by
            simp [intercalateSlash]

theorem intercalateSlash_no_bs (parts : List (List Char))
    (h : ∀ e ∈ parts, '\\' ∉ e) : '\\' ∉ intercalateSlash parts := by
  induction parts with
  | nil => simp [intercalateSlash]
  | cons p0 rest ih =>
    cases rest with
    | nil => simpa [intercalateSlash] using h p0 (by simp)
    | cons r1 rs =>
      intro hmem
      have hmem2 : '\\' ∈ p0 ++ '/' :: intercalateSlash (r1 :: rs) := hmem
      rcases List.mem_append.mp hmem2 with hin | hin
      · exact h p0 (by simp) hin
      · rcases List.mem_cons.mp hin with hc | hin2
        · exact absurd hc (by decide)
        · exact ih (fun e he => h e (by simp [he])) hin2

theorem repBS_id (s : List Char) (h : '\\' ∉ s) : repBS s = s := by
  induction s with
  | nil => rfl
  | cons c cs ih =>
    have hc : ¬ c = '\\' := by rintro rfl; exact h (List.mem_cons_self _ _)
    have hcs : '\\' ∉ cs := fun hh => h (List.mem_cons_of_mem c hh)
    show (if c = '\\' then '/' else c) :: repBS cs = c :: cs
    rw [if_neg hc, ih hcs]

theorem startsWithL_slash_cons (c : Char) (t : List Char) (hc : ¬ c = '/') :
    startsWithL ['/'] (c :: t) = false := by
  show ('/' == c && startsWithL [] t) = false
  have : ('/' == c) = false := by
    simp
    exact fun hh => hc hh.symm
  simp [this]

theorem pathClean_good_rooted (parts : List (List Char)) (hne : parts ≠ [])
    (h : ∀ e ∈ parts, GoodElem e) :
    pathClean ('/' :: intercalateSlash parts) = '/' :: intercalateSlash parts := by
  have hslash : ∀ e ∈ parts, '/' ∉ e := fun e he => (h e he).2.2.2.1
  have hrooted : startsWithL ['/'] ('/' :: intercalateSlash parts) = true := by
    simp [startsWithL]
  have hsplit : splitOnSlash ('/' :: intercalateSlash parts) = [] :: parts := by
    have h1 : splitOnSlash ('/' :: intercalateSlash parts) =
        [] :: splitOnSlash (intercalateSlash parts) := by
      simp [splitOnSlash]
    rw [h1, splitOnSlash_intercalate parts hne hslash]
  unfold pathClean
  rw [if_neg (by simp), hrooted, hsplit, List.foldl_cons]
  have hstep : cleanStep true [] [] = [] := by simp [cleanStep]
  rw [hstep, foldl_cleanStep_good true parts [] h, List.append_nil,
    List.reverse_reverse]
  unfold pathCleanParts
  rw [if_neg hne]
  simp

theorem pathClean_good_nonrooted (parts : List (List Char)) (hne : parts ≠ [])
    (h : ∀ e ∈ parts, GoodElem e) :
    pathClean (intercalateSlash parts) = intercalateSlash parts := by
  have hslash : ∀ e ∈ parts, '/' ∉ e := fun e he => (h e he).2.2.2.1
  have hnn : intercalateSlash parts ≠ [] :=
    intercalateSlash_ne_nil parts hne (fun e he => (h e he).1)
  have hrooted : startsWithL ['/'] (intercalateSlash parts) = false := by
    cases parts with
    | nil => exact absurd rfl hne
    | cons p0 rest =>
      have h0 := h p0 (by simp)
      obtain ⟨c, cs, rfl⟩ : ∃ c cs, p0 = c :: cs := by
        cases p0 with
        | nil => exact absurd rfl h0.1
        | cons c cs => exact ⟨c, cs, rfl⟩
      have hc : ¬ c = '/' := by
        rintro rfl
        exact h0.2.2.2.1 (by simp)
      cases rest with
      | nil => exact startsWithL_slash_cons c cs hc
      | cons r1 rs =>
        show startsWithL ['/'] ((c :: cs) ++ '/' :: intercalateSlash (r1 :: rs)) = false
        exact startsWithL_slash_cons c _ hc
  unfold pathClean
  rw [if_neg hnn, hrooted, splitOnSlash_intercalate parts hne hslash,
    foldl_cleanStep_good false parts [] h, List.append_nil,
    List.reverse_reverse]
  unfold pathCleanParts
  rw [if_neg hne]
  simp

/-- **C4.** With the configured pair host root `D:/My Projects/Projects 1C`,
container root `/projects`: for every path `p` whose slash-normalized,
cleaned form is a case variant of the host root followed by a clean
relative part, `HostToContainer` maps `p` to `/projects/<rel>` and
`ContainerToHost ∘ HostToContainer` returns the host path back — equal to
the normalized form of `p` up to the case of the root segment (the
canonical-case root is restored).  In particular the mapper construction
yields exactly this pair, and
`HostToContainer "D:\\My Projects\\Projects 1C\\temp\\file.bsl"` is
`/projects/temp/file.bsl`. -/
theorem pathmap_roundtrip (p rootVar : List Char) (relParts : List (List Char))
    (hURI : startsWithL ("file://".toList) p = false)
    (hne : relParts ≠ [])
    (hgood : ∀ e ∈ relParts, GoodElem e)
    (hfold : listEqFold rootVar hostRootChars = true)
    (hdecomp : normalizeSeparators p =
      rootVar ++ '/' :: intercalateSlash relParts) :
    hostToContainer exampleMapper p =
      .ok ("/projects".toList ++ '/' :: intercalateSlash relParts) ∧
    (hostToContainer exampleMapper p).bind (containerToHost exampleMapper) =
      .ok (hostRootChars ++ '/' :: intercalateSlash relParts) ∧
    newDockerPathMapper "D:/My Projects/Projects 1C".toList "/projects".toList =
      .ok exampleMapper ∧
    hostToContainer exampleMapper
        "D:\\My Projects\\Projects 1C\\temp\\file.bsl".toList =
      .ok "/projects/temp/file.bsl".toList := by
  have hrl : rootVar.length = hostRootChars.length := listEqFold_length _ _ hfold
  have h26 : hostRootChars.length = 26 := rfl
  have hrelNe : ∀ e ∈ relParts, e ≠ [] := fun e he => (hgood e he).1
  have hicne : intercalateSlash relParts ≠ [] :=
    intercalateSlash_ne_nil _ hne hrelNe
  have hpne : ¬ p = [] := by
    rintro rfl
    have h0 : normalizeSeparators ([] : List Char) = ['.'] := rfl
    rw [h0] at hdecomp
    have hlen := congrArg List.length hdecomp
    rw [List.length_append, hrl, h26] at hlen
    simp at hlen
    omega
  have hpre : foldHasPrefixL (rootVar ++ '/' :: intercalateSlash relParts)
      hostRootChars = true := by
    have hnotlt : ¬ (rootVar ++ '/' :: intercalateSlash relParts).length <
        hostRootChars.length := by
      rw [List.length_append, hrl]
      omega
    unfold foldHasPrefixL
    rw [if_neg hnotlt, List.take_left' hrl]
    exact hfold
  have hdrop : (rootVar ++ '/' :: intercalateSlash relParts).drop
      hostRootChars.length = '/' :: intercalateSlash relParts :=
    List.drop_left' hrl
  have hgoodP : ∀ e ∈ "projects".toList :: relParts, GoodElem e := by
    intro e he
    rcases List.mem_cons.mp he with rfl | he2
    · decide
    · exact hgood e he2
  have hcontEq : "/projects".toList ++ '/' :: intercalateSlash relParts =
      '/' :: intercalateSlash ("projects".toList :: relParts) := by
    rw [intercalateSlash_cons _ _ hne]
    rfl
  have hcleanC : pathClean ("/projects".toList ++ '/' :: intercalateSlash relParts) =
      "/projects".toList ++ '/' :: intercalateSlash relParts := by
    rw [hcontEq]
    exact pathClean_good_rooted _ (by simp) hgoodP
  have hjoin1 : pathJoin "/projects".toList (intercalateSlash relParts) =
      "/projects".toList ++ '/' :: intercalateSlash relParts := by
    unfold pathJoin
    rw [if_neg (by decide)]
    exact hcleanC
  have hmapped : mapHostPath exampleMapper p =
      .ok ("/projects".toList ++ '/' :: intercalateSlash relParts) := by
    unfold mapHostPath
    rw [show exampleMapper.hostRoot = hostRootChars from rfl, hdecomp, hdrop,
      if_pos hpre]
    rw [show trimOneLeadingSlash ('/' :: intercalateSlash relParts) =
        intercalateSlash relParts from rfl]
    rw [if_neg hicne,
      show exampleMapper.containerRoot = "/projects".toList from rfl, hjoin1,
      hcleanC]
  have hH : hostToContainer exampleMapper p =
      .ok ("/projects".toList ++ '/' :: intercalateSlash relParts) := by
    unfold hostToContainer
    rw [if_neg (show ¬ ((!exampleMapper.enabled) = true) by decide),
      if_neg hpne, hURI]
    rw [if_neg (show ¬ (false = true) by decide)]
    exact hmapped
  -- the reverse direction on the mapped value
  have hgoodH : ∀ e ∈ ("D:".toList :: "My Projects".toList ::
      "Projects 1C".toList :: relParts), GoodElem e := by
    intro e he
    rcases List.mem_cons.mp he with rfl | he2
    · decide
    rcases List.mem_cons.mp he2 with rfl | he3
    · decide
    rcases List.mem_cons.mp he3 with rfl | he4
    · decide
    · exact hgood e he4
  have hhostEq : hostRootChars ++ '/' :: intercalateSlash relParts =
      intercalateSlash (["D:".toList, "My Projects".toList,
        "Projects 1C".toList] ++ relParts) := by
    rw [intercalateSlash_append _ _ (by simp) hne]
    rfl
  have hcleanH : pathClean (hostRootChars ++ '/' :: intercalateSlash relParts) =
      hostRootChars ++ '/' :: intercalateSlash relParts := by
    rw [hhostEq]
    exact pathClean_good_nonrooted _ (by simp) (by simpa using hgoodH)
  have hjoin2 : pathJoin hostRootChars (intercalateSlash relParts) =
      hostRootChars ++ '/' :: intercalateSlash relParts := by
    unfold pathJoin
    rw [if_neg (by decide)]
    exact hcleanH
  have hnbs : '\\' ∉ "/projects".toList ++ '/' :: intercalateSlash relParts := by
    intro hmem
    rcases List.mem_append.mp hmem with hin | hin
    · exact absurd hin (by decide)
    rcases List.mem_cons.mp hin with hc | hin2
    · exact absurd hc (by decide)
    · exact intercalateSlash_no_bs relParts
        (fun e he => (hgood e he).2.2.2.2) hin2
  have hnormC : normalizeSeparators
      ("/projects".toList ++ '/' :: intercalateSlash relParts) =
      "/projects".toList ++ '/' :: intercalateSlash relParts := by
    unfold normalizeSeparators
    rw [repBS_id _ hnbs, hcleanC]
  have hC : containerToHost exampleMapper
      ("/projects".toList ++ '/' :: intercalateSlash relParts) =
      .ok (hostRootChars ++ '/' :: intercalateSlash relParts) := by
    unfold containerToHost
    rw [if_neg (show ¬ ((!exampleMapper.enabled) = true) by decide),
      if_neg (show ¬ ("/projects".toList ++ '/' :: intercalateSlash relParts = [])
        by simp), hnormC,
      show exampleMapper.containerRoot = "/projects".toList from rfl,
      if_pos (startsWithL_self_append "/projects".toList
        ('/' :: intercalateSlash relParts)),
      List.drop_left "/projects".toList ('/' :: intercalateSlash relParts)]
    rw [show trimOneLeadingSlash ('/' :: intercalateSlash relParts) =
        intercalateSlash relParts from rfl]
    rw [if_neg hicne,
      show exampleMapper.hostRoot = hostRootChars from rfl, hjoin2, hcleanH]
  refine ⟨hH, ?_, ?_, ?_⟩
  · rw [hH]
    exact hC
  · rfl
  · rfl

/-! ### URI round-trip lemmas -/

theorem escapePath_cons (c : Char) (t : List Char) :
    escapePath (c :: t) =
      (if shouldEscapePathByte c then
        ['%', hexDigitUpper (c.toNat / 16), hexDigitUpper (c.toNat % 16)]
       else [c]) ++ escapePath t := by
  simp [escapePath]

theorem escapePath_cons_noesc (c : Char) (t : List Char)
    (h : shouldEscapePathByte c = false) :
    escapePath (c :: t) = c :: escapePath t := by
  rw [escapePath_cons, h]
  simp

theorem hexVal_hexDigitUpper (n : Nat) (h : n < 16) :
    hexVal (hexDigitUpper n) = some n := by
  interval_cases n <;> decide

theorem pathUnescape_escapePath (s : List Char)
    (h : ∀ c ∈ s, c.toNat < 128) :
    pathUnescape (escapePath s) = .ok s := by
  induction s with
  | nil => rfl
  | cons c t ih =>
    have hct : c.toNat < 128 := h c (by simp)
    have iht := ih (fun x hx => h x (by simp [hx]))
    rw [escapePath_cons]
    by_cases hc : shouldEscapePathByte c = true
    · rw [if_pos hc]
      simp only [pathUnescape, List.nil_append]
      rw [if_pos trivial, hexVal_hexDigitUpper _ (by omega),
        hexVal_hexDigitUpper _ (by omega)]
      dsimp only
      rw [show ([] : List Char).append (escapePath t) = escapePath t from rfl,
        iht]
      dsimp only
      rw [show c.toNat / 16 * 16 + c.toNat % 16 = c.toNat from by omega,
        Char.ofNat_toNat]
    · have hc' : shouldEscapePathByte c = false := by
        simpa using hc
      have hcp : ¬ c = '%' := by
        rintro rfl
        exact absurd hc' (by decide)
      rw [if_neg hc]
      show pathUnescape (c :: escapePath t) = .ok (c :: t)
      rw [pathUnescape.eq_def]
      dsimp only
      rw [if_neg hcp, iht]

theorem pathUnescape_noPercent (s : List Char) (h : '%' ∉ s) :
    pathUnescape s = .ok s := by
  induction s with
  | nil => rfl
  | cons c t ih =>
    have hcp : ¬ c = '%' := by rintro rfl; exact h (List.mem_cons_self _ _)
    have iht := ih (fun hx => h (List.mem_cons_of_mem c hx))
    rw [pathUnescape.eq_def]
    dsimp only
    rw [if_neg hcp, iht]

theorem intercalateSlash_forall (P : Char → Prop) (parts : List (List Char))
    (hP : P '/') (h : ∀ e ∈ parts, ∀ c ∈ e, P c) :
    ∀ c ∈ intercalateSlash parts, P c := by
  induction parts with
  | nil => simp [intercalateSlash]
  | cons p0 rest ih =>
    cases rest with
    | nil => simpa [intercalateSlash] using h p0 (by simp)
    | cons r1 rs =>
      intro c hc
      have hc2 : c ∈ p0 ++ '/' :: intercalateSlash (r1 :: rs) := hc
      rcases List.mem_append.mp hc2 with hin | hin
      · exact h p0 (by simp) c hin
      rcases List.mem_cons.mp hin with rfl | hin2
      · exact hP
      · exact ih (fun e he => h e (by simp [he])) c hin2

/-- The round trip on a POSIX absolute path whose cleaned form is a rooted
sequence of clean elements, percent-free and ASCII, and not of drive-letter
shape. -/
theorem uriRoundtripRooted (cwd p : List Char) (parts : List (List Char))
    (htrim : trimSpaceL p = p)
    (hstart : startsWithL ['/'] p = true)
    (hne : parts ≠ [])
    (hgood : ∀ e ∈ parts, GoodElem e)
    (hascii : ∀ e ∈ parts, ∀ c ∈ e, c.toNat < 128)
    (hpct : ∀ e ∈ parts, '%' ∉ e)
    (hdecomp : pathClean p = '/' :: intercalateSlash parts)
    (hnoPrep : prependSlashIfDrive ('/' :: intercalateSlash parts) =
      '/' :: intercalateSlash parts)
    (hnoStrip : stripDriveSlash ('/' :: intercalateSlash parts) =
      '/' :: intercalateSlash parts) :
    (pathToFileURI cwd p).bind fileURIToPath = .ok (pathClean p) := by
  obtain ⟨cs, rfl⟩ : ∃ cs, p = '/' :: cs := by
    cases p with
    | nil => simp [startsWithL] at hstart
    | cons c t =>
      have h2 : '/' = c ∧ startsWithL [] t = true := by
        simpa [startsWithL] using hstart
      exact ⟨t, by rw [← h2.1]⟩
  have hwin : ¬ (isWindowsAbsPathL ('/' :: cs) = true) := by
    cases cs with
    | nil => simp [isWindowsAbsPathL]
    | cons b bs =>
      simp only [isWindowsAbsPathL, decide_eq_true_eq]
      rintro ⟨h1 | h1, -⟩ <;> exact absurd h1.1 (by decide)
  have hQclean : pathClean ('/' :: intercalateSlash parts) =
      '/' :: intercalateSlash parts := pathClean_good_rooted parts hne hgood
  have hasciiQ : ∀ c ∈ '/' :: intercalateSlash parts, c.toNat < 128 := by
    intro c hc
    rcases List.mem_cons.mp hc with rfl | hin
    · decide
    · exact intercalateSlash_forall (fun c => c.toNat < 128) parts
        (by decide) hascii c hin
  have hpctQ : '%' ∉ '/' :: intercalateSlash parts := by
    intro hc
    rcases List.mem_cons.mp hc with hc1 | hin
    · exact absurd hc1 (by decide)
    · exact intercalateSlash_forall (fun c => c ≠ '%') parts
        (by decide) (fun e he c hcc => fun hh => hpct e he (hh ▸ hcc)) '%' hin rfl
  have hXeq : escapePath ('/' :: intercalateSlash parts) =
      '/' :: escapePath (intercalateSlash parts) :=
    escapePath_cons_noesc _ _ (by decide)
  have hU1 : pathUnescape ('/' :: escapePath (intercalateSlash parts)) =
      .ok ('/' :: intercalateSlash parts) := by
    rw [← hXeq]
    exact pathUnescape_escapePath _ hasciiQ
  unfold pathToFileURI
  rw [htrim, if_neg (by simp), if_neg hwin, if_pos hstart, hdecomp, hQclean,
    hnoPrep]
  show fileURIToPath ("file://".toList ++
    escapePath ('/' :: intercalateSlash parts)) = _
  unfold fileURIToPath
  rw [if_pos (startsWithL_self_append _ _),
    List.drop_left' (show ("file://".toList).length = 7 from rfl), hXeq,
    List.takeWhile_cons_of_neg (by decide)]
  show (match pathUnescape (('/' :: escapePath (intercalateSlash parts)).drop
      (List.length [])) with
    | .error _ => (.error "invalid uri" : Except String (List Char))
    | .ok p0 =>
      match pathUnescape p0 with
      | .error e => .error ("invalid uri path escape: " ++ e)
      | .ok p1 =>
        if ([] : List Char) ≠ [] then .ok ('/' :: '/' :: [] ++ p1)
        else .ok (stripDriveSlash p1)) = _
  rw [show List.length ([] : List Char) = 0 from rfl, List.drop_zero, hU1]
  show (match pathUnescape ('/' :: intercalateSlash parts) with
    | .error e => (.error ("invalid uri path escape: " ++ e) :
        Except String (List Char))
    | .ok p1 =>
      if ([] : List Char) ≠ [] then .ok ('/' :: '/' :: [] ++ p1)
      else .ok (stripDriveSlash p1)) = _
  rw [pathUnescape_noPercent _ hpctQ]
  show (if ([] : List Char) ≠ [] then
      (.ok ('/' :: '/' :: [] ++ ('/' :: intercalateSlash parts)) :
        Except String (List Char))
    else .ok (stripDriveSlash ('/' :: intercalateSlash parts))) = _
  rw [if_neg (by simp), hnoStrip]

/-- The round trip on a Windows drive-letter path, ASCII and percent-free
after separator normalization. -/
theorem uriRoundtripWin (cwd p : List Char)
    (htrim : trimSpaceL p = p)
    (hwin : isWindowsAbsPathL p = true)
    (hascii : ∀ c ∈ repDS (repBS p), c.toNat < 128)
    (hpct : '%' ∉ repDS (repBS p)) :
    (pathToFileURI cwd p).bind fileURIToPath = .ok (repDS (repBS p)) := by
  obtain ⟨l, rest0, rfl, hletter⟩ :
      ∃ l rest0, p = l :: ':' :: rest0 ∧
        (('A' ≤ l ∧ l ≤ 'Z') ∨ ('a' ≤ l ∧ l ≤ 'z')) := by
    cases p with
    | nil => simp [isWindowsAbsPathL] at hwin
    | cons a t =>
      cases t with
      | nil => simp [isWindowsAbsPathL] at hwin
      | cons b t2 =>
        have h2 : (('A' ≤ a ∧ a ≤ 'Z') ∨ ('a' ≤ a ∧ a ≤ 'z')) ∧ b = ':' := by
          simpa [isWindowsAbsPathL] using hwin
        exact ⟨a, t2, by rw [h2.2], h2.1⟩
  have hlbs : ¬ l = '\\' := by
    rcases hletter with ⟨h1, h2⟩ | ⟨h1, h2⟩ <;>
      (rintro rfl; revert h1 h2; decide)
  have hlslash : ¬ l = '/' := by
    rcases hletter with ⟨h1, h2⟩ | ⟨h1, h2⟩ <;>
      (rintro rfl; revert h1 h2; decide)
  have hlpct : ¬ l = '%' := by
    rcases hletter with ⟨h1, h2⟩ | ⟨h1, h2⟩ <;>
      (rintro rfl; revert h1 h2; decide)
  have hlesc : shouldEscapePathByte l = false := by
    unfold shouldEscapePathByte
    rcases hletter with h | h
    · rw [if_pos (Or.inr (Or.inl h))]
    · rw [if_pos (Or.inl h)]
  have hrepBS : repBS (l :: ':' :: rest0) = l :: ':' :: repBS rest0 := by
    show (if l = '\\' then '/' else l) ::
      (if (':' : Char) = '\\' then '/' else ':') :: repBS rest0 = _
    rw [if_neg hlbs, if_neg (by decide)]
  have hColon : repDS (':' :: repBS rest0) = ':' :: repDS (repBS rest0) := by
    rw [repDS.eq_def]
    dsimp only
    rw [if_neg (by decide)]
  have hw : repDS (repBS (l :: ':' :: rest0)) =
      l :: ':' :: repDS (repBS rest0) := by
    rw [hrepBS, repDS.eq_def]
    dsimp only
    rw [if_neg hlslash, hColon]
  rw [hw] at hascii hpct
  have hprep : prependSlashIfDrive (l :: ':' :: repDS (repBS rest0)) =
      '/' :: l :: ':' :: repDS (repBS rest0) := rfl
  have hesc : escapePath ('/' :: l :: ':' :: repDS (repBS rest0)) =
      '/' :: l :: ':' :: escapePath (repDS (repBS rest0)) := by
    rw [escapePath_cons_noesc _ _ (by decide),
      escapePath_cons_noesc _ _ hlesc,
      escapePath_cons_noesc _ _ (by decide)]
  have hasciiW : ∀ c ∈ '/' :: l :: ':' :: repDS (repBS rest0), c.toNat < 128 := by
    intro c hc
    rcases List.mem_cons.mp hc with rfl | hc2
    · decide
    · exact hascii c hc2
  have hpctW : '%' ∉ '/' :: l :: ':' :: repDS (repBS rest0) := by
    intro hc
    rcases List.mem_cons.mp hc with hc1 | hc2
    · exact absurd hc1 (by decide)
    · exact hpct hc2
  have hU1 : pathUnescape ('/' :: l :: ':' :: escapePath (repDS (repBS rest0))) =
      .ok ('/' :: l :: ':' :: repDS (repBS rest0)) := by
    rw [← hesc]
    exact pathUnescape_escapePath _ hasciiW
  have hU2 : pathUnescape ('/' :: l :: ':' :: repDS (repBS rest0)) =
      .ok ('/' :: l :: ':' :: repDS (repBS rest0)) :=
    pathUnescape_noPercent _ hpctW
  have hstrip : stripDriveSlash ('/' :: l :: ':' :: repDS (repBS rest0)) =
      l :: ':' :: repDS (repBS rest0) := rfl
  unfold pathToFileURI
  rw [htrim, if_neg (by simp), if_pos hwin, hw, hprep]
  show fileURIToPath ("file://".toList ++
    escapePath ('/' :: l :: ':' :: repDS (repBS rest0))) = _
  unfold fileURIToPath
  rw [if_pos (startsWithL_self_append _ _),
    List.drop_left' (show ("file://".toList).length = 7 from rfl), hesc,
    List.takeWhile_cons_of_neg (by decide)]
  show (match pathUnescape (('/' :: l :: ':' ::
      escapePath (repDS (repBS rest0))).drop (List.length [])) with
    | .error _ => (.error "invalid uri" : Except String (List Char))
    | .ok p0 =>
      match pathUnescape p0 with
      | .error e => .error ("invalid uri path escape: " ++ e)
      | .ok p1 =>
        if ([] : List Char) ≠ [] then .ok ('/' :: '/' :: [] ++ p1)
        else .ok (stripDriveSlash p1)) = _
  rw [show List.length ([] : List Char) = 0 from rfl, List.drop_zero, hU1]
  show (match pathUnescape ('/' :: l :: ':' :: repDS (repBS rest0)) with
    | .error e => (.error ("invalid uri path escape: " ++ e) :
        Except String (List Char))
    | .ok p1 =>
      if ([] : List Char) ≠ [] then .ok ('/' :: '/' :: [] ++ p1)
      else .ok (stripDriveSlash p1)) = _
  rw [hU2]
  show (if ([] : List Char) ≠ [] then
      (.ok ('/' :: '/' :: [] ++ ('/' :: l :: ':' :: repDS (repBS rest0))) :
        Except String (List Char))
    else .ok (stripDriveSlash ('/' :: l :: ':' :: repDS (repBS rest0)))) = _
  rw [if_neg (by simp), hstrip]

/-- **C5 (counterexample).** The claimed universal round trip fails on the
absolute POSIX path `/a%20b` (which is its own normalized form): the URI
is `file:///a%2520b`, but `FileURIToPath` percent-decodes twice
(`url.Parse` already decoded the path before the explicit
`url.PathUnescape`), returning `/a b` ≠ `/a%20b`. -/
theorem uri_roundtrip_counterexample :
    (pathToFileURI [] "/a%20b".toList).bind fileURIToPath =
      .ok "/a b".toList ∧
    pathToFileURI [] "/a%20b".toList = .ok "file:///a%2520b".toList ∧
    pathClean "/a%20b".toList = "/a%20b".toList ∧
    ("/a b".toList = "/a%20b".toList → False) := by
  refine ⟨rfl, rfl, rfl, by decide⟩

/-- **C5 (amended).** `FileURIToPath ∘ PathToFileURI` returns the
normalized form of an absolute path `p` — `path.Clean(p)` for POSIX paths,
backslash and double-slash normalization for Windows drive paths, with
`PathToFileURI("C:/Users/a b/c.bsl") = "file:///C:/Users/a%20b/c.bsl"`
and back — provided the normalized form contains no `'%'` (the decoder
unescapes twice) and, for POSIX paths, is ASCII, made of clean
slash-separated elements, and not itself of Windows drive shape (else the
drive-letter rules rewrite it). -/
theorem uri_roundtrip :
    (∀ cwd p parts, trimSpaceL p = p → startsWithL ['/'] p = true →
      parts ≠ [] → (∀ e ∈ parts, GoodElem e) →
      (∀ e ∈ parts, ∀ c ∈ e, c.toNat < 128) → (∀ e ∈ parts, '%' ∉ e) →
      pathClean p = '/' :: intercalateSlash parts →
      prependSlashIfDrive ('/' :: intercalateSlash parts) =
        '/' :: intercalateSlash parts →
      stripDriveSlash ('/' :: intercalateSlash parts) =
        '/' :: intercalateSlash parts →
      (pathToFileURI cwd p).bind fileURIToPath = .ok (pathClean p)) ∧
    (∀ cwd p, trimSpaceL p = p → isWindowsAbsPathL p = true →
      (∀ c ∈ repDS (repBS p), c.toNat < 128) → '%' ∉ repDS (repBS p) →
      (pathToFileURI cwd p).bind fileURIToPath = .ok (repDS (repBS p))) ∧
    pathToFileURI [] "C:/Users/a b/c.bsl".toList =
      .ok "file:///C:/Users/a%20b/c.bsl".toList ∧
    fileURIToPath "file:///C:/Users/a%20b/c.bsl".toList =
      .ok "C:/Users/a b/c.bsl".toList :=
  ⟨fun cwd p parts h1 h2 h3 h4 h5 h6 h7 h8 h9 =>
      uriRoundtripRooted cwd p parts h1 h2 h3 h4 h5 h6 h7 h8 h9,
    fun cwd p h1 h2 h3 h4 => uriRoundtripWin cwd p h1 h2 h3 h4,
    rfl, rfl⟩

/-- Witness for C5 on the POSIX path `/tmp/x y/z.bsl` and the Windows path
`D:\\Data\\proj\\x.bsl`. -/
theorem uri_roundtrip_witness :
    trimSpaceL "/tmp/x y/z.bsl".toList = "/tmp/x y/z.bsl".toList ∧
    (pathToFileURI [] "/tmp/x y/z.bsl".toList).bind fileURIToPath =
      .ok (pathClean "/tmp/x y/z.bsl".toList) ∧
    (pathToFileURI [] "D:\\Data\\proj\\x.bsl".toList).bind fileURIToPath =
      .ok (repDS (repBS "D:\\Data\\proj\\x.bsl".toList)) :=
  ⟨by decide,
    uri_roundtrip.1 [] "/tmp/x y/z.bsl".toList
      ["tmp".toList, "x y".toList, "z.bsl".toList]
      (by decide) (by decide) (by decide) (by decide) (by decide) (by decide)
      (by decide) (by decide) (by decide),
    uri_roundtrip.2.1 [] "D:\\Data\\proj\\x.bsl".toList
      (by decide) (by decide) (by decide) (by decide)⟩

/-- Witness for C4 at the lower-case root variant
`d:/my projects/projects 1c/src/Module.bsl`. -/
theorem pathmap_roundtrip_witness :
    (normalizeSeparators "d:/my projects/projects 1c/src/Module.bsl".toList =
      "d:/my projects/projects 1c".toList ++ '/' ::
        intercalateSlash ["src".toList, "Module.bsl".toList]) ∧
    hostToContainer exampleMapper
        "d:/my projects/projects 1c/src/Module.bsl".toList =
      .ok ("/projects".toList ++ '/' ::
        intercalateSlash ["src".toList, "Module.bsl".toList]) ∧
    (hostToContainer exampleMapper
        "d:/my projects/projects 1c/src/Module.bsl".toList).bind
        (containerToHost exampleMapper) =
      .ok (hostRootChars ++ '/' ::
        intercalateSlash ["src".toList, "Module.bsl".toList]) :=
  ⟨by decide,
    (pathmap_roundtrip "d:/my projects/projects 1c/src/Module.bsl".toList
      "d:/my projects/projects 1c".toList ["src".toList, "Module.bsl".toList]
      (by decide) (by decide) (by decide) (by decide) (by decide)).1,
    (pathmap_roundtrip "d:/my projects/projects 1c/src/Module.bsl".toList
      "d:/my projects/projects 1c".toList ["src".toList, "Module.bsl".toList]
      (by decide) (by decide) (by decide) (by decide) (by decide)).2.1⟩

end Bridge
